import Mathlib

/-!
Verification development for the `lale/helpers.py` module: a shallow
embedding of the hyperparameter-space instantiator
(`instantiate_from_hyperopt_search_space` and
`create_instance_from_hyperopt_search_space`), the cross-validation
evaluator's aggregation (`cross_val_score_track_trials`), the
schema-preserving splitter (`split_with_schemas`), and the value wrapper
(`val_wrapper`), together with theorems settling the specification claims.

Modelling conventions:
- Python values are the inductive type `PVal`; dictionaries are ordered
  association lists with unique keys (Python dicts keep insertion order);
  all dictionary keys that occur in this module are ints or strings
  (hyperparameter names, the string key used by the code, and
  choice/step indices produced by the optimizer), so keys are `PKey`.
- Lale operators are consumed only through the structural contract the
  module uses: an IndividualOp carries an operator-class name and an
  optional hyperparameter dict (`_hyperparams`, which may be Python None);
  a BasePipeline carries `steps()` (ordered) and `edges()`; since the
  Python code keys its step-to-instance map by step object identity and
  builds it positionally, edges are represented as pairs of step indices.
  An OperatorChoice carries its list of alternatives.  Calling an operator
  with keyword arguments (`lale_object(**all_hyperparams)`) constructs a
  new operator of the same class with exactly those hyperparameters, and
  requires every keyword to be a string (Python raises TypeError
  otherwise).
- Exceptions are modelled with `Except PErr`; in-place mutation of the
  sample (the only mutation the code performs) is modelled by returning
  the mutated value alongside the Python return value.  Mutations that
  precede a raised exception are discarded by `Except`, which is sound
  for the claims here because every claim observes only return values
  and raised errors.
-/

/-- Dictionary keys used by the module: Python ints or strings. -/
inductive PKey where
  | int : Int → PKey
  | str : String → PKey
  deriving Repr, DecidableEq

/-- Python values manipulated by helpers.py: primitives, containers, the
NestedHyperoptSpace marker (`nested`), lale operators (`indOp`, `pipe`,
`choice`), val_wrapper instances (`wrapped`), and Python None. -/
inductive PVal where
  | int : Int → PVal
  | str : String → PVal
  | pyNone : PVal
  | list : List PVal → PVal
  | tuple : List PVal → PVal
  | dict : List (PKey × PVal) → PVal
  | nested : PVal → PVal
  | indOp : String → Option (List (PKey × PVal)) → PVal
  | pipe : List PVal → List (Nat × Nat) → PVal
  | choice : List PVal → PVal
  | wrapped : PVal → PVal
  deriving Repr

/-- Python exceptions raised by the embedded code.  AttributeError and
TypeError from mismatched duck-typed structure are folded into
`typeError`; the two ValueError raises of
`create_instance_from_hyperopt_search_space` are distinguished because
the claims distinguish them. -/
inductive PErr where
  | typeError
  | indexError
  | assertionError
  | stepCountMismatch
  | danglingEdge
  deriving Repr, DecidableEq

/-- A Python int or string key, viewed as a value (`list(d)` yields keys). -/
def keyToVal : PKey → PVal
  | .int i => .int i
  | .str s => .str s

/-- Python dict membership/indexing: first entry with the given key. -/
def lookup : List (PKey × PVal) → PKey → Option PVal
  | [], _ => none
  | (k', v) :: rest, k => if k' = k then some v else lookup rest k

/-- helpers.py `dict_without`: copy of the dict with the given key removed,
preserving order of the remaining entries. -/
def dict_without (d : List (PKey × PVal)) (key : PKey) : List (PKey × PVal) :=
  d.filter (fun kv => decide (kv.1 ≠ key))

/-- Python `{**a, **b}`: keys of `a` in order (values overridden by `b`
where `b` has the key), then keys of `b` not in `a`, in order. -/
def dictMerge (a b : List (PKey × PVal)) : List (PKey × PVal) :=
  a.map (fun kv => (kv.1, (lookup b kv.1).getD kv.2)) ++
  b.filter (fun kv => (lookup a kv.1).isNone)

/-- Whether a key is a Python string (keyword arguments must be strings). -/
def PKey.isStr : PKey → Bool
  | .str _ => true
  | .int _ => false

/-- Python `len` on the container kinds this module feeds to it (strings
never occur as samples here and are left out). -/
def pyLen : PVal → Except PErr Nat
  | .list xs => .ok xs.length
  | .tuple xs => .ok xs.length
  | .dict l => .ok l.length
  | _ => .error .typeError

/-- Python list indexing with an int index (negative indices count from
the end; out-of-range raises IndexError). -/
def pyIndexP (xs : List PVal) (i : Int) : Except PErr PVal :=
  if 0 ≤ i then
    match xs.get? i.toNat with
    | some v => .ok v
    | none => .error .indexError
  else
    if (-i).toNat ≤ xs.length then
      match xs.get? (xs.length - (-i).toNat) with
      | some v => .ok v
      | none => .error .indexError
    else .error .indexError

/-- Model of `sub_op.class_name()` as consumed by the assert at line 381:
an IndividualOp's class name is its operator-class name, which
`lale_object(**kwargs)` preserves; pipelines map to pipeline classes on
both sides of the assert; other values have no `class_name` attribute. -/
def classNameOf : PVal → Option String
  | .indOp n _ => some n
  | .pipe _ _ => some "Pipeline"
  | _ => none

/-- The assert at helpers.py line 381:
`isinstance(sub_op, OperatorChoice) or sub_op.class_name() == op_instance.class_name()`.
`r = none` models the recursive call having returned Python None, on which
attribute access raises (folded into `typeError`). -/
def assertStepOk (s : PVal) (r : Option PVal) : Except PErr Unit :=
  match s with
  | .choice _ => .ok ()
  | _ =>
      match classNameOf s with
      | none => .error .typeError
      | some cs =>
          match r with
          | none => .error .typeError
          | some inst =>
              match classNameOf inst with
              | none => .error .typeError
              | some ci => if cs = ci then .ok () else .error .assertionError

/-- The edge-remapping of lines 386-391: every edge endpoint must be a
step of the pipeline (otherwise the KeyError is re-raised as the
dangling-edge ValueError); in the positional model this is a bounds
check, and the remapped edge set is the same set of index pairs over the
new instances. -/
def finishPipeline (insts : List PVal) (edges : List (Nat × Nat)) (nsteps : Nat) :
    Except PErr (Option PVal) :=
  if edges.all (fun e => decide (e.1 < nsteps) && decide (e.2 < nsteps)) then
    .ok (some (.pipe insts edges))
  else .error .danglingEdge

theorem sizeOf_keyToVal (k : PKey) : sizeOf (keyToVal k) = sizeOf k := by
  cases k <;> simp [keyToVal]

theorem sizeOf_filter_le (p : PKey × PVal → Bool) (l : List (PKey × PVal)) :
    sizeOf (List.filter p l) ≤ sizeOf l := by
  induction l with
  | nil => simp
  | cons h t ih =>
      simp only [List.filter]
      cases p h <;> (simp; omega)

theorem sizeOf_keysMap_le (l : List (PKey × PVal)) :
    sizeOf (l.map (fun kv => keyToVal kv.1)) ≤ sizeOf l := by
  induction l with
  | nil => simp
  | cons h t ih =>
      simp only [List.map]
      have := sizeOf_keyToVal h.1
      rcases h with ⟨k, v⟩
      simp at this ⊢
      omega

mutual

/-- helpers.py lines 280-338, `instantiate_from_hyperopt_search_space`.
The first component of the result is the Python return value (`none` is
Python None); the second component is `new_hyperparams` after the
in-place mutations the call performs on nested dicts (for non-dict,
non-container samples it is returned unchanged). -/
def instantiate_from_hyperopt_search_space (obj new : PVal) :
    Except PErr (Option PVal × PVal) :=
  match new with
  | .nested sub =>
      -- lines 281-294: resolve the marker against the matching original
      match obj with
      | .list subOps =>
          match subOps with
          | [soleOp] =>
              -- a length-1 list: use its sole element
              match create_instance_from_hyperopt_search_space soleOp sub with
              | .error e => .error e
              | .ok r => .ok (r, .nested sub)
          | _ =>
              -- step_index, step_params = list(sub_params)[0]; iterating a
              -- dict yields keys (ints or strings), whose unpacking raises
              -- TypeError, as does a non-int step_index in the comparison
              -- step_index < len(sub_op); all such cases land in typeError.
              match sub with
              | .list (first :: _) | .tuple (first :: _) =>
                  match first with
                  | .list [.int i, sp] | .tuple [.int i, sp] =>
                      if i < (subOps.length : Int) then
                        match pyIndexP subOps i with
                        | .error e => .error e
                        | .ok so =>
                            match create_instance_from_hyperopt_search_space so sp with
                            | .error e => .error e
                            | .ok r => .ok (r, .nested sub)
                      else
                        -- create_instance_from_hyperopt_search_space on a plain
                        -- list matches no isinstance arm and returns Python
                        -- None; inlined to keep the recursion structural
                        .ok (none, .nested sub)
                  | .dict [(.int i, _), (k2, _)] =>
                      -- unpacking a 2-entry dict yields its two keys
                      if i < (subOps.length : Int) then
                        match pyIndexP subOps i with
                        | .error e => .error e
                        | .ok so =>
                            match create_instance_from_hyperopt_search_space so (keyToVal k2) with
                            | .error e => .error e
                            | .ok r => .ok (r, .nested sub)
                      else
                        -- create_instance_from_hyperopt_search_space on a plain
                        -- list matches no isinstance arm and returns Python
                        -- None; inlined to keep the recursion structural
                        .ok (none, .nested sub)
                  | _ => .error .typeError
              | .list [] | .tuple [] => .error .indexError
              | .dict ((_, _) :: _) => .error .typeError
              | .dict [] => .error .indexError
              | _ => .error .typeError
      | _ =>
          match create_instance_from_hyperopt_search_space obj sub with
          | .error e => .error e
          | .ok r => .ok (r, .nested sub)
  | .list ns =>
      match obj with
      | .list os => instantiateSeqCase os ns false false
      | .tuple os => instantiateSeqCase os ns true false
      | _ => .error .assertionError
  | .tuple ns =>
      match obj with
      | .list os => instantiateSeqCase os ns false true
      | .tuple os => instantiateSeqCase os ns true true
      | _ => .error .assertionError
  | .dict nd =>
      -- lines 327-336: update entries in place, always return None
      match obj with
      | .dict od =>
          match instantiateDictEntries od nd with
          | .error e => .error e
          | .ok nd' => .ok (none, .dict nd')
      | _ => .error .assertionError
  | _ => .ok (none, new)
termination_by (sizeOf new, sizeOf obj)
decreasing_by all_goals first
  | (simp_wf; omega)
  | (simp_wf
     apply Prod.Lex.left
     try simp only [sizeOf_keyToVal]
     omega)

/-- The list/tuple branch of lines 296-325: walk the paired entries,
build the updated container if any entry updated (coerced to the
original's container kind), otherwise apply the tuple/list coercion
workaround when the container kinds disagree, else return None. -/
def instantiateSeqCase (os ns : List PVal) (objTup newTup : Bool) :
    Except PErr (Option PVal × PVal) :=
  if os.length = ns.length then
    match instantiateSeqEntries os ns with
    | .error e => .error e
    | .ok prs =>
        let nsMut := prs.map (fun pr => pr.2)
        let newMut := if newTup then PVal.tuple nsMut else PVal.list nsMut
        if prs.all (fun pr => pr.1.isNone) then
          if objTup != newTup then
            .ok (some (if objTup then PVal.tuple nsMut else PVal.list nsMut), newMut)
          else
            .ok (none, newMut)
        else
          let res := prs.map (fun pr => pr.1.getD pr.2)
          .ok (some (if objTup then PVal.tuple res else PVal.list res), newMut)
  else .error .assertionError
termination_by (sizeOf ns, sizeOf os + 1)
decreasing_by all_goals omega

/-- The per-index loop of lines 302-309: each pair gives (the recursive
return value, the possibly mutated sample entry). -/
def instantiateSeqEntries (os ns : List PVal) :
    Except PErr (List (Option PVal × PVal)) :=
  match os, ns with
  | [], [] => .ok []
  | o :: os', n :: ns' =>
      match instantiate_from_hyperopt_search_space o n with
      | .error e => .error e
      | .ok rn =>
          match instantiateSeqEntries os' ns' with
          | .error e => .error e
          | .ok rest => .ok (rn :: rest)
  | _, _ => .error .assertionError
termination_by (sizeOf ns, sizeOf os)
decreasing_by all_goals (simp_wf; omega)

/-- The dict walk shared by lines 330-335 and lines 361-366: for each
sample entry whose key is also a key of the original dict, recurse; a
non-None result replaces the entry, otherwise the (possibly mutated)
entry is kept.  Returns the resulting entries of the sample dict. -/
def instantiateDictEntries (od nd : List (PKey × PVal)) :
    Except PErr (List (PKey × PVal)) :=
  match nd with
  | [] => .ok []
  | (k, v) :: rest =>
      match lookup od k with
      | some subOp =>
          match instantiate_from_hyperopt_search_space subOp v with
          | .error e => .error e
          | .ok (r, v') =>
              match instantiateDictEntries od rest with
              | .error e => .error e
              | .ok rest' => .ok ((k, r.getD v') :: rest')
      | none =>
          match instantiateDictEntries od rest with
          | .error e => .error e
          | .ok rest' => .ok ((k, v) :: rest')
termination_by (sizeOf nd, sizeOf od)
decreasing_by all_goals (simp_wf; omega)

/-- helpers.py lines 340-404, `create_instance_from_hyperopt_search_space`.
Returns the constructed operator, or `none` for Python None (the function
falls off the end when `lale_object` is not an operator). -/
def create_instance_from_hyperopt_search_space (lale_object hyperparams : PVal) :
    Except PErr (Option PVal) :=
  match lale_object with
  | .indOp opName objHp =>
      -- lines 354-369
      match hyperparams with
      | .dict sample =>
          let nd := dict_without sample (.str "name")
          let od := objHp.getD []
          match instantiateDictEntries od nd with
          | .error e => .error e
          | .ok nd' =>
              let allHp := dictMerge od nd'
              -- lale_object(**all_hyperparams): keywords must be strings
              if allHp.all (fun kv => kv.1.isStr) then
                .ok (some (.indOp opName (some allHp)))
              else .error .typeError
      | _ => .error .typeError
  | .pipe steps edges =>
      -- lines 370-391
      match pyLen hyperparams with
      | .error e => .error e
      | .ok n =>
          if n ≠ steps.length then .error .stepCountMismatch
          else
            match hyperparams with
            | .list samples =>
                match instantiatePipelineSteps steps samples with
                | .error e => .error e
                | .ok insts => finishPipeline insts edges steps.length
            | .tuple samples =>
                match instantiatePipelineSteps steps samples with
                | .error e => .error e
                | .ok insts => finishPipeline insts edges steps.length
            | .dict entries =>
                -- enumerating a dict yields its keys
                match instantiatePipelineSteps steps (entries.map (fun kv => keyToVal kv.1)) with
                | .error e => .error e
                | .ok insts => finishPipeline insts edges steps.length
            | _ => .error .typeError
  | .choice choices =>
      -- lines 392-404
      match choices with
      | [c] =>
          -- exactly one alternative: index 0, sample used directly
          create_instance_from_hyperopt_search_space c hyperparams
      | _ =>
          match hyperparams with
          | .dict ((k, v) :: _) =>
              match k with
              | .int i =>
                  match pyIndexP choices i with
                  | .error e => .error e
                  | .ok so => create_instance_from_hyperopt_search_space so v
              | .str _ => .error .typeError
          | .dict [] => .error .indexError
          | _ => .error .typeError
  | _ => .ok none
termination_by (sizeOf hyperparams, sizeOf lale_object)
decreasing_by all_goals first
  | (simp_wf; omega)
  | (simp_wf
     apply Prod.Lex.left
     simp only [dict_without]
     refine lt_of_le_of_lt (sizeOf_filter_le _ _) ?_
     omega)
  | (simp_wf
     apply Prod.Lex.left
     refine lt_of_le_of_lt (sizeOf_keysMap_le _) ?_
     omega)

/-- The per-step loop of lines 374-383, including the class-name assert;
a Python-None instance (possible when a step is a choice over a
non-operator) is appended as `pyNone`. -/
def instantiatePipelineSteps (steps samples : List PVal) :
    Except PErr (List PVal) :=
  match steps, samples with
  | [], [] => .ok []
  | s :: ss, p :: ps =>
      match create_instance_from_hyperopt_search_space s p with
      | .error e => .error e
      | .ok r =>
          match assertStepOk s r with
          | .error e => .error e
          | .ok _ =>
              match instantiatePipelineSteps ss ps with
              | .error e => .error e
              | .ok rest => .ok (r.getD .pyNone :: rest)
  | _, _ => .error .assertionError
termination_by (sizeOf samples, sizeOf steps)
decreasing_by all_goals (simp_wf; omega)

end

/-- helpers.py lines 480-485, the classmethod `val_wrapper.unwrap`:
recursively strips `val_wrapper` layers until a non-wrapper value is
reached; any other value is returned unchanged.  Wrapping a value
(`val_wrapper(v)`) is the constructor `PVal.wrapped`. -/
def val_wrapper.unwrap : PVal → PVal
  | .wrapped b => val_wrapper.unwrap b
  | .int i => .int i
  | .str s => .str s
  | .pyNone => .pyNone
  | .list xs => .list xs
  | .tuple xs => .tuple xs
  | .dict l => .dict l
  | .nested s => .nested s
  | .indOp n h => .indOp n h
  | .pipe s e => .pipe s e
  | .choice c => .choice c

/-- Whether a value is a `val_wrapper` instance. -/
def isWrapper : PVal → Bool
  | .wrapped _ => true
  | _ => false

/-- The JSON-shaped structural descriptor built by `split_with_schemas`:
`{type: 'array', minItems: n, maxItems: n, items: <item schema>}`.  The
item schema is propagated opaquely and is abstracted to a token. -/
structure JSchema where
  type : String
  minItems : Nat
  maxItems : Nat
  items : String
  deriving Repr, DecidableEq

/-- A schema-carrying array-like value: abstract rows plus the optional
attached descriptor (`hasattr(x, 'json_schema')`). -/
structure SData where
  rows : List Int
  json_schema : Option JSchema
  deriving Repr, DecidableEq

/-- Modelled external delegate `sklearn...._safe_split` as consumed by
helpers.py: selects the given rows of the data (one output row per given
index, in order; an out-of-range index raises).  `train_indices` only
influences estimator-specific indexing strategies, never the row count,
and is not modelled further. -/
def safeSplitRows (rows : List Int) : List Nat → Option (List Int)
  | [] => some []
  | i :: rest =>
      match rows[i]?, safeSplitRows rows rest with
      | some r, some rs => some (r :: rs)
      | _, _ => none

/-- helpers.py lines 121-136, `split_with_schemas`: select the subset, and
for each of X and y that carries a schema, attach a derived schema whose
minItems and maxItems are the subset's row count and whose items field is
copied from the original schema. -/
def split_with_schemas (X y : SData) (indices : List Nat)
    (train_indices : Option (List Nat)) : Option (SData × SData) :=
  match safeSplitRows X.rows indices, safeSplitRows y.rows indices with
  | some xr, some yr =>
      let subX : SData :=
        { rows := xr,
          json_schema := match X.json_schema with
            | some s => some ⟨"array", xr.length, xr.length, s.items⟩
            | none => none }
      let subY : SData :=
        { rows := yr,
          json_schema := match y.json_schema with
            | some s => some ⟨"array", yr.length, yr.length, s.items⟩
            | none => none }
      some (subX, subY)
  | _, _ => none

/-- One fold of the cross-validation loop of helpers.py lines 173-193,
abstracting the external fit/score/predict_proba calls: the scorer's
value, the log-loss when the estimator exposes probability prediction and
`log_loss` succeeds (`none` when the `except BaseException` path skips
it), and the fold's measured wall-clock fit+score duration.  Real
arithmetic is modelled exactly over the rationals. -/
structure FoldResult where
  score : ℚ
  logloss : Option ℚ
  duration : ℚ
  deriving Repr, DecidableEq

/-- `np.array(xs).mean()`: the arithmetic mean, which is NaN (`none`) on
an empty array. -/
def npMean (xs : List ℚ) : Option ℚ :=
  match xs with
  | [] => none
  | _ => some (xs.sum / (xs.length : ℚ))

/-- State of the accumulators of the fold loop: `cv_results`,
`log_loss_results`, `time_results`, and the loop variable
`execution_time` (unbound before the first fold). -/
structure CVState where
  cv_results : List ℚ
  log_loss_results : List ℚ
  time_results : List ℚ
  execution_time : Option ℚ
  deriving Repr, DecidableEq

/-- The fold loop of lines 173-193: per fold, append the log-loss when
available, append the score, append the duration, and leave
`execution_time` bound to this fold's duration. -/
def cvLoop : List FoldResult → CVState → CVState
  | [], st => st
  | f :: fs, st =>
      cvLoop fs
        { cv_results := st.cv_results ++ [f.score],
          log_loss_results := st.log_loss_results ++ f.logloss.toList,
          time_results := st.time_results ++ [f.duration],
          execution_time := some f.duration }

/-- helpers.py lines 138-195, `cross_val_score_track_trials`, as a
function of the per-fold outcomes: line 194 builds the result as
`(np.array(cv_results).mean(), np.array(log_loss_results).mean(),
np.array(execution_time).mean())` — the third component averages the
scalar `execution_time` of the final fold, not the accumulated
`time_results` list.  With zero folds, `execution_time` is an unbound
name and line 194 raises (`none`). -/
def cross_val_score_track_trials (folds : List FoldResult) :
    Option (Option ℚ × Option ℚ × ℚ) :=
  let st := cvLoop folds ⟨[], [], [], none⟩
  match st.execution_time with
  | none => none
  | some t => some (npMean st.cv_results, npMean st.log_loss_results, t)

/-- The claim C6 wording, stated as a lookup function: the union of the
declared hyperparameters and the sample, with sample values taking
precedence on every shared key. -/
def unionWithPrecedence (objHp sample : List (PKey × PVal)) (k : PKey) : Option PVal :=
  (lookup sample k).orElse (fun _ => lookup objHp k)

/-! Helper lemmas about dictionary lookup and the double-splat merge. -/

theorem lookup_append (l1 l2 : List (PKey × PVal)) (k : PKey) :
    lookup (l1 ++ l2) k = (lookup l1 k).orElse (fun _ => lookup l2 k) := by
  induction l1 with
  | nil => simp [lookup]
  | cons kv rest ih =>
      rcases kv with ⟨k', v⟩
      by_cases h : k' = k <;> simp [lookup, h, ih]

theorem lookup_mapValues (a b : List (PKey × PVal)) (k : PKey) :
    lookup (a.map (fun kv => (kv.1, (lookup b kv.1).getD kv.2))) k
      = (lookup a k).map (fun v => (lookup b k).getD v) := by
  induction a with
  | nil => simp [lookup]
  | cons kv rest ih =>
      rcases kv with ⟨k', v⟩
      by_cases h : k' = k
      · subst h; simp [lookup]
      · simp [lookup, h, ih]

theorem lookup_filter_key (p : PKey → Bool) (l : List (PKey × PVal)) (k : PKey) :
    lookup (l.filter (fun kv => p kv.1)) k
      = if p k then lookup l k else none := by
  induction l with
  | nil => simp [lookup]
  | cons kv rest ih =>
      rcases kv with ⟨k', v⟩
      by_cases h : k' = k
      · subst h
        cases hp : p k' <;> simp [lookup, List.filter, hp, ih]
      · cases hp : p k' <;> simp [lookup, List.filter, hp, h, ih]

theorem lookup_dictMerge (a b : List (PKey × PVal)) (k : PKey) :
    lookup (dictMerge a b) k = (lookup b k).orElse (fun _ => lookup a k) := by
  have hfilter :
      lookup (b.filter (fun kv => (lookup a kv.1).isNone)) k
        = if (lookup a k).isNone then lookup b k else none := by
    simpa using lookup_filter_key (fun k' => (lookup a k').isNone) b k
  rw [dictMerge, lookup_append, lookup_mapValues, hfilter]
  cases ha : lookup a k <;> cases hb : lookup b k <;> simp

theorem lookup_eq_none_of_keys (l : List (PKey × PVal)) (k : PKey)
    (h : ∀ kv ∈ l, kv.1 ≠ k) : lookup l k = none := by
  induction l with
  | nil => simp [lookup]
  | cons kv rest ih =>
      simp only [List.mem_cons, forall_eq_or_imp] at h
      simp [lookup, h.1, ih h.2]

/-! C7: the value wrapper. -/

/-- C7, counterexample: the claim quantifies `unwrap(wrap(v)) == v` over
every value `v`, but for `v` itself a `val_wrapper` instance the
class-level unwrap strips all layers, so at `v = wrap(0)` the result is
`0`, not `v`. -/
theorem C7_counterexample :
    val_wrapper.unwrap (.wrapped (.wrapped (.int 0))) ≠ .wrapped (.int 0) := by
  simp [val_wrapper.unwrap]

/-- C7, amended: for every value `v` that is not a `val_wrapper` instance,
`unwrap(wrap(v)) == v`, `unwrap(wrap(wrap(v))) == v`, and `unwrap(v) == v`
(unwrap recursively strips nested wrappers until a non-wrapper value is
reached). -/
theorem C7_amended (v : PVal) (h : isWrapper v = false) :
    val_wrapper.unwrap (.wrapped v) = v ∧
    val_wrapper.unwrap (.wrapped (.wrapped v)) = v ∧
    val_wrapper.unwrap v = v := by
  cases v <;> simp_all [val_wrapper.unwrap, isWrapper]

theorem C7_witness :
    isWrapper (.int 3) = false ∧
    (val_wrapper.unwrap (.wrapped (.int 3)) = .int 3 ∧
     val_wrapper.unwrap (.wrapped (.wrapped (.int 3))) = .int 3 ∧
     val_wrapper.unwrap (.int 3) = .int 3) :=
  ⟨rfl, C7_amended (.int 3) rfl⟩

/-! C8: step-count mismatch. -/

/-- C8: for every pipeline and every sample whose length differs from the
pipeline's step count, `create_instance_from_hyperopt_search_space`
raises the step-count-mismatch ValueError of line 373, surfaced to the
caller, and no instantiated pipeline is returned. -/
theorem C8_step_count_mismatch (steps : List PVal) (edges : List (Nat × Nat))
    (hp : PVal) (n : Nat) (hlen : pyLen hp = .ok n) (hne : n ≠ steps.length) :
    create_instance_from_hyperopt_search_space (.pipe steps edges) hp
      = .error .stepCountMismatch := by
  cases hp <;> simp_all [pyLen, create_instance_from_hyperopt_search_space]

theorem C8_witness :
    pyLen (.list []) = .ok 0 ∧ 0 ≠ [PVal.indOp "A" (some [])].length ∧
    create_instance_from_hyperopt_search_space
      (.pipe [.indOp "A" (some [])] []) (.list []) = .error .stepCountMismatch :=
  ⟨rfl, by decide, C8_step_count_mismatch _ _ _ 0 rfl (by decide)⟩

/-! C2: the single-alternative choice shortcut. -/

/-- C2, counterexample: for the one-alternative choice over operator `A`
and the sample `{h: 7}`, instantiating with the bare sample yields `A`
configured with `h = 7`, while instantiating with the singleton mapping
`{0: {h: 7}}` passes that mapping through unchanged to `A`, whose
keyword expansion then fails on the int key `0`; the two results differ. -/
theorem C2_counterexample :
    create_instance_from_hyperopt_search_space
      (.choice [.indOp "A" (some [])]) (.dict [(.str "h", .int 7)]) ≠
    create_instance_from_hyperopt_search_space
      (.choice [.indOp "A" (some [])]) (.dict [(.int 0, .dict [(.str "h", .int 7)])]) := by
  simp [create_instance_from_hyperopt_search_space, instantiateDictEntries,
        lookup, dict_without, dictMerge, PKey.isStr]

/-- C2, amended: for every OperatorChoice with exactly one alternative and
every sample, `create_instance_from_hyperopt_search_space` applied to the
choice equals the same function applied directly to the sole alternative
with the *unchanged* sample; the `{0: sample}` singleton mapping is not
unwrapped in this case, so instantiating with `{0: sample}` is generally
different from instantiating with `sample`. -/
theorem C2_amended (alt hp : PVal) :
    create_instance_from_hyperopt_search_space (.choice [alt]) hp
      = create_instance_from_hyperopt_search_space alt hp := by
  rw [create_instance_from_hyperopt_search_space]

/-! Shared lemmas about the IndividualOp branch (lines 354-369). -/

/-- One-step unfolding of the IndividualOp branch: remove the key
`'name'` from the sample, walk the remaining entries against the
declared hyperparameters, merge with sample-derived values taking
precedence, and construct the new operator. -/
theorem create_indOp_eq (name_ : String) (objHp : Option (List (PKey × PVal)))
    (sample : List (PKey × PVal)) :
    create_instance_from_hyperopt_search_space (.indOp name_ objHp) (.dict sample)
      = match instantiateDictEntries (objHp.getD []) (dict_without sample (.str "name")) with
        | .error e => .error e
        | .ok nd' =>
            if (dictMerge (objHp.getD []) nd').all (fun kv => kv.1.isStr) then
              .ok (some (.indOp name_ (some (dictMerge (objHp.getD []) nd'))))
            else .error .typeError := by
  rw [create_instance_from_hyperopt_search_space]

/-- The dict walk never changes keys: the resulting entries have the same
keys, in the same order, as the sample entries it was given. -/
theorem instantiateDictEntries_keys (od nd nd' : List (PKey × PVal))
    (h : instantiateDictEntries od nd = .ok nd') :
    nd'.map Prod.fst = nd.map Prod.fst := by
  induction nd generalizing nd' with
  | nil =>
      rw [instantiateDictEntries] at h
      cases h
      simp
  | cons kv rest ih =>
      rcases kv with ⟨k, v⟩
      rw [instantiateDictEntries] at h
      split at h
      · split at h
        · cases h
        · split at h
          · cases h
          · cases h
            rename_i rest' hr
            simpa using ih _ hr
      · split at h
        · cases h
        · cases h
          rename_i rest' hr
          simpa using ih _ hr

/-! C6: hyperparameter merge precedence. -/

/-- C6, counterexample: for the operator with declared hyperparameters
`{a: 1, name: 5}` and the sample `{a: 9, name: 9}` (which overlap), the
claimed union-with-sample-precedence has `9` at the key `name`, but the
code removes `'name'` from the sample before merging, so the instantiated
operator's effective hyperparameters keep the declared value `5` there. -/
theorem C6_counterexample :
    create_instance_from_hyperopt_search_space
        (.indOp "A" (some [(.str "a", .int 1), (.str "name", .int 5)]))
        (.dict [(.str "a", .int 9), (.str "name", .int 9)])
      = .ok (some (.indOp "A" (some [(.str "a", .int 9), (.str "name", .int 5)]))) ∧
    unionWithPrecedence [(.str "a", .int 1), (.str "name", .int 5)]
        [(.str "a", .int 9), (.str "name", .int 9)] (.str "name") = some (.int 9) ∧
    lookup [(.str "a", .int 9), (.str "name", .int 5)] (.str "name") = some (.int 5) ∧
    (some (PVal.int 5) : Option PVal) ≠ some (.int 9) := by
  refine ⟨?_, ?_, ?_, ?_⟩
  · simp [create_instance_from_hyperopt_search_space, instantiateDictEntries,
          instantiate_from_hyperopt_search_space, lookup, dict_without,
          dictMerge, PKey.isStr]
  · simp [unionWithPrecedence, lookup]
  · simp [lookup]
  · simp

/-- C6, amended: the effective hyperparameters of the instantiated
operator are the union of the declared hyperparameters and the *processed*
sample — the sample with its `'name'` key removed and nested-search-space
markers instantiated — with sample-derived values taking precedence on
every shared key.  In particular, for samples with no `'name'` key and no
entry the dict walk updates, the effective hyperparameters are exactly
the union of the two mappings with sample precedence, e.g. defaults
`{a: 1, b: 2}` merged with sample `{a: 9}` yield `{a: 9, b: 2}`. -/
theorem C6_amended (name_ : String) (od sample : List (PKey × PVal))
    (hname : ∀ kv ∈ sample, kv.1 ≠ PKey.str "name")
    (hnoup : instantiateDictEntries od sample = .ok sample)
    (hkeys : (dictMerge od sample).all (fun kv => kv.1.isStr) = true) :
    create_instance_from_hyperopt_search_space (.indOp name_ (some od)) (.dict sample)
      = .ok (some (.indOp name_ (some (dictMerge od sample)))) ∧
    ∀ k, lookup (dictMerge od sample) k = unionWithPrecedence od sample k := by
  have hfilter : dict_without sample (.str "name") = sample := by
    rw [dict_without]
    apply List.filter_eq_self.mpr
    intro kv hkv
    simpa using hname kv hkv
  constructor
  · rw [create_indOp_eq]
    simp only [Option.getD_some, hfilter, hnoup, hkeys]
    simp
  · intro k
    rw [unionWithPrecedence, lookup_dictMerge]

theorem C6_witness :
    create_instance_from_hyperopt_search_space
        (.indOp "A" (some [(.str "a", .int 1), (.str "b", .int 2)]))
        (.dict [(.str "a", .int 9)])
      = .ok (some (.indOp "A" (some [(.str "a", .int 9), (.str "b", .int 2)]))) ∧
    lookup [(.str "a", .int 9), (.str "b", .int 2)] (.str "a") = some (.int 9) ∧
    lookup [(.str "a", .int 9), (.str "b", .int 2)] (.str "b") = some (.int 2) := by
  have h := C6_amended "A" [(.str "a", .int 1), (.str "b", .int 2)] [(.str "a", .int 9)]
    (by simp)
    (by simp [instantiateDictEntries, instantiate_from_hyperopt_search_space, lookup])
    (by decide)
  refine ⟨?_, by simp [lookup], by simp [lookup]⟩
  simpa [dictMerge, lookup] using h.1

/-! C10: the sample's reserved key `'name'`. -/

/-- C10: for every individual operator and every sample mapping, the key
`'name'` is removed from the sample before merging, so whenever
instantiation succeeds, the effective hyperparameters at the key `'name'`
are exactly the declared hyperparameters' value there (in particular a
sample entry keyed `'name'` never appears, regardless of its value). -/
theorem C10_name_never_merged (name_ : String) (objHp : Option (List (PKey × PVal)))
    (sample merged : List (PKey × PVal)) (instName : String)
    (h : create_instance_from_hyperopt_search_space (.indOp name_ objHp) (.dict sample)
           = .ok (some (.indOp instName (some merged)))) :
    lookup merged (.str "name") = lookup (objHp.getD []) (.str "name") := by
  rw [create_indOp_eq] at h
  split at h
  · cases h
  · rename_i nd' hnd
    split at h
    · simp only [Except.ok.injEq, Option.some.injEq, PVal.indOp.injEq] at h
      have hkeys := instantiateDictEntries_keys _ _ _ hnd
      have hnone : lookup nd' (.str "name") = none := by
        apply lookup_eq_none_of_keys
        intro kv hkv
        have hmem : kv.1 ∈ nd'.map Prod.fst := List.mem_map_of_mem _ hkv
        rw [hkeys] at hmem
        rcases List.mem_map.mp hmem with ⟨kv2, hkv2, hfst⟩
        have hne : kv2.1 ≠ PKey.str "name" := by
          have hf := List.of_mem_filter hkv2
          simpa using hf
        rw [← hfst]
        exact hne
      rw [← h.2, lookup_dictMerge, hnone]
      simp
    · cases h

theorem C10_witness :
    create_instance_from_hyperopt_search_space (.indOp "A" (some []))
        (.dict [(.str "name", .int 42)]) = .ok (some (.indOp "A" (some []))) ∧
    lookup [] (.str "name")
      = lookup ((some ([] : List (PKey × PVal))).getD []) (.str "name") :=
  ⟨by simp [create_instance_from_hyperopt_search_space, instantiateDictEntries,
            dict_without, dictMerge, lookup],
   C10_name_never_merged "A" (some []) [(.str "name", .int 42)] [] "A"
     (by simp [create_instance_from_hyperopt_search_space, instantiateDictEntries,
               dict_without, dictMerge, lookup])⟩

/-! C1: the None-as-no-update sentinel of the recursive walker. -/

/-- Behaviour of the list/tuple branch when original and sample have the
same container kind: None is returned exactly when every per-entry
recursive call returned None, and otherwise the updated container. -/
theorem instantiateSeqCase_same_kind (os ns : List PVal) (tup : Bool)
    (prs : List (Option PVal × PVal)) (r : Option PVal) (m : PVal)
    (h1 : instantiateSeqEntries os ns = .ok prs)
    (h2 : instantiateSeqCase os ns tup tup = .ok (r, m)) :
    (r = none ↔ ∀ pr ∈ prs, pr.1 = none) ∧
    (r ≠ none →
      r = some ((if tup then PVal.tuple else PVal.list)
                  (prs.map (fun pr => pr.1.getD pr.2)))) := by
  rw [instantiateSeqCase] at h2
  split at h2
  · rw [h1] at h2
    simp only [bne_self_eq_false, Bool.false_eq_true, if_false] at h2
    by_cases hall : (prs.all (fun pr => pr.1.isNone)) = true
    · rw [if_pos hall] at h2
      cases h2
      constructor
      · constructor
        · intro _ pr hpr
          have := List.all_eq_true.mp hall pr hpr
          simpa [Option.isNone_iff_eq_none] using this
        · intro _; rfl
      · intro hne; exact absurd rfl hne
    · rw [if_neg hall] at h2
      cases h2
      constructor
      · constructor
        · intro hcontra; cases hcontra
        · intro hforall
          exfalso
          apply hall
          apply List.all_eq_true.mpr
          intro pr hpr
          simp [Option.isNone_iff_eq_none, hforall pr hpr]
      · intro _
        cases tup <;> simp
  · cases h2

/-- C1, counterexample: a recursive call on the dict entry `"k"` yields an
update (an instantiated operator), yet the call on the dict container
returns None (the update is applied by mutating the sample in place),
contradicting the claim that such a call returns the updated container. -/
theorem C1_counterexample :
    instantiate_from_hyperopt_search_space (.indOp "Op" (some [])) (.nested (.dict []))
      = .ok (some (.indOp "Op" (some [])), .nested (.dict [])) ∧
    instantiate_from_hyperopt_search_space
        (.dict [(.str "k", .indOp "Op" (some []))])
        (.dict [(.str "k", .nested (.dict []))])
      = .ok (none, .dict [(.str "k", .indOp "Op" (some []))]) := by
  constructor <;>
    simp [instantiate_from_hyperopt_search_space, instantiateDictEntries,
          create_instance_from_hyperopt_search_space, lookup, dict_without,
          dictMerge, PKey.isStr]

/-- C1, amended: for a dict sample the call always returns None, applying
any updates by mutating the sample's entries in place; for a list (or
tuple) sample walked against an original of the same container kind, the
call returns None exactly when no entry's recursive call yielded an
update, and otherwise returns the updated container (each entry replaced
by its update where one was produced). -/
theorem C1_amended :
    (∀ od nd r m,
        instantiate_from_hyperopt_search_space (.dict od) (.dict nd) = .ok (r, m) →
        r = none) ∧
    (∀ os ns prs r m,
        instantiateSeqEntries os ns = .ok prs →
        instantiate_from_hyperopt_search_space (.list os) (.list ns) = .ok (r, m) →
        ((r = none ↔ ∀ pr ∈ prs, pr.1 = none) ∧
         (r ≠ none → r = some (.list (prs.map (fun pr => pr.1.getD pr.2)))))) ∧
    (∀ os ns prs r m,
        instantiateSeqEntries os ns = .ok prs →
        instantiate_from_hyperopt_search_space (.tuple os) (.tuple ns) = .ok (r, m) →
        ((r = none ↔ ∀ pr ∈ prs, pr.1 = none) ∧
         (r ≠ none → r = some (.tuple (prs.map (fun pr => pr.1.getD pr.2)))))) := by
  refine ⟨?_, ?_, ?_⟩
  · intro od nd r m h
    rw [instantiate_from_hyperopt_search_space] at h
    split at h
    · cases h
    · cases h; rfl
  · intro os ns prs r m h1 h2
    rw [instantiate_from_hyperopt_search_space] at h2
    simpa using instantiateSeqCase_same_kind os ns false prs r m h1 h2
  · intro os ns prs r m h1 h2
    rw [instantiate_from_hyperopt_search_space] at h2
    simpa using instantiateSeqCase_same_kind os ns true prs r m h1 h2

theorem C1_witness :
    (instantiate_from_hyperopt_search_space (.dict [(.str "a", .int 1)])
        (.dict [(.str "a", .int 2)]) = .ok (none, .dict [(.str "a", .int 2)])) ∧
    (none : Option PVal) = none ∧
    (instantiateSeqEntries [.indOp "A" (some [])] [.nested (.dict [])]
        = .ok [(some (.indOp "A" (some [])), .nested (.dict []))]) ∧
    (instantiate_from_hyperopt_search_space (.list [.indOp "A" (some [])])
        (.list [.nested (.dict [])])
      = .ok (some (.list [.indOp "A" (some [])]), .list [.nested (.dict [])])) ∧
    ((some (PVal.list [.indOp "A" (some [])]) = none ↔
        ∀ pr ∈ [((some (PVal.indOp "A" (some []))), PVal.nested (.dict []))],
          pr.1 = none) ∧
     (some (PVal.list [.indOp "A" (some [])]) ≠ none →
        some (PVal.list [.indOp "A" (some [])])
          = some (.list ([((some (PVal.indOp "A" (some []))), PVal.nested (.dict []))].map
              (fun pr => pr.1.getD pr.2))))) := by
  refine ⟨?_, ?_, ?_, ?_, ?_⟩
  · simp [instantiate_from_hyperopt_search_space, instantiateDictEntries, lookup]
  · exact C1_amended.1 [(.str "a", .int 1)] [(.str "a", .int 2)] none
      (.dict [(.str "a", .int 2)])
      (by simp [instantiate_from_hyperopt_search_space, instantiateDictEntries, lookup])
  · simp [instantiateSeqEntries, instantiate_from_hyperopt_search_space,
          create_instance_from_hyperopt_search_space, instantiateDictEntries,
          dict_without, dictMerge, PKey.isStr]
  · simp [instantiate_from_hyperopt_search_space, instantiateSeqCase,
          instantiateSeqEntries, create_instance_from_hyperopt_search_space,
          instantiateDictEntries, dict_without, dictMerge, PKey.isStr]
  · exact C1_amended.2.1 [.indOp "A" (some [])] [.nested (.dict [])]
      [((some (PVal.indOp "A" (some []))), PVal.nested (.dict []))]
      (some (PVal.list [.indOp "A" (some [])])) (.list [.nested (.dict [])])
      (by simp [instantiateSeqEntries, instantiate_from_hyperopt_search_space,
                create_instance_from_hyperopt_search_space, instantiateDictEntries,
                dict_without, dictMerge, PKey.isStr])
      (by simp [instantiate_from_hyperopt_search_space, instantiateSeqCase,
                instantiateSeqEntries, create_instance_from_hyperopt_search_space,
                instantiateDictEntries, dict_without, dictMerge, PKey.isStr])


/-! C5: structural fidelity of pipeline instantiation. -/

/-- The per-step loop: when it succeeds, it produces exactly one instance
per step, in step order, each one the instantiation of the corresponding
original step with the corresponding sample entry. -/
theorem instantiatePipelineSteps_ok (steps samples insts : List PVal)
    (h : instantiatePipelineSteps steps samples = .ok insts) :
    insts.length = steps.length ∧ samples.length = steps.length ∧
    ∀ (i : Nat) (s p : PVal), steps[i]? = some s → samples[i]? = some p →
      ∃ r, create_instance_from_hyperopt_search_space s p = .ok r ∧
           insts[i]? = some (r.getD .pyNone) := by
  induction steps generalizing samples insts with
  | nil =>
      cases samples with
      | nil =>
          rw [instantiatePipelineSteps] at h
          cases h
          refine ⟨rfl, rfl, ?_⟩
          intro i s p hs _
          simp at hs
      | cons p ps =>
          simp [instantiatePipelineSteps] at h
  | cons s ss ih =>
      cases samples with
      | nil =>
          simp [instantiatePipelineSteps] at h
      | cons p ps =>
          rw [instantiatePipelineSteps] at h
          split at h
          · cases h
          · rename_i r hr
            split at h
            · cases h
            · split at h
              · cases h
              · rename_i rest hrest
                cases h
                obtain ⟨hlen1, hlen2, hfor⟩ := ih ps rest hrest
                refine ⟨by simp [hlen1], by simp [hlen2], ?_⟩
                intro i s' p' hs hp
                cases i with
                | zero =>
                    simp at hs hp
                    subst hs; subst hp
                    exact ⟨r, hr, by simp⟩
                | succ n =>
                    simp at hs hp ⊢
                    exact hfor n s' p' hs hp

/-- C5: for a pipeline with steps `s0..sk` and (index-pair) edge set `E`
with endpoints among the steps, and a matching sample sequence `h0..hk`
whose per-step instantiations succeed, the result is a pipeline with
exactly `k+1` steps in the same order — each the instantiation of the
corresponding original step — and with edge set `E` carried over to the
new instances (the step-to-instance map is positional, so the remapped
pair of edge `(a, b)` is the pair of the instances at the same indices). -/
theorem C5_pipeline_fidelity (steps : List PVal) (edges : List (Nat × Nat))
    (samples insts : List PVal)
    (hsteps : instantiatePipelineSteps steps samples = .ok insts)
    (hedges : ∀ e ∈ edges, e.1 < steps.length ∧ e.2 < steps.length) :
    create_instance_from_hyperopt_search_space (.pipe steps edges) (.list samples)
      = .ok (some (.pipe insts edges)) ∧
    insts.length = steps.length ∧
    (∀ (i : Nat) (s p : PVal), steps[i]? = some s → samples[i]? = some p →
      ∃ r, create_instance_from_hyperopt_search_space s p = .ok r ∧
           insts[i]? = some (r.getD .pyNone)) := by
  obtain ⟨h1, h2, h3⟩ := instantiatePipelineSteps_ok steps samples insts hsteps
  refine ⟨?_, h1, h3⟩
  have hall : (edges.all
      (fun e => decide (e.1 < steps.length) && decide (e.2 < steps.length))) = true := by
    apply List.all_eq_true.mpr
    intro e he
    simpa using hedges e he
  rw [create_instance_from_hyperopt_search_space]
  simp only [pyLen, h2, hsteps, finishPipeline, hall]
  simp

theorem C5_witness :
    create_instance_from_hyperopt_search_space
        (.pipe [.indOp "Scaler" (some []), .indOp "Classifier" (some [])] [(0, 1)])
        (.list [.dict [], .dict [(.str "n_neighbors", .int 5)]])
      = .ok (some (.pipe
          [.indOp "Scaler" (some []),
           .indOp "Classifier" (some [(.str "n_neighbors", .int 5)])] [(0, 1)])) ∧
    ([PVal.indOp "Scaler" (some []),
      PVal.indOp "Classifier" (some [(.str "n_neighbors", .int 5)])] : List PVal).length
      = ([PVal.indOp "Scaler" (some []),
          PVal.indOp "Classifier" (some [])] : List PVal).length := by
  have h := C5_pipeline_fidelity
    [.indOp "Scaler" (some []), .indOp "Classifier" (some [])] [(0, 1)]
    [.dict [], .dict [(.str "n_neighbors", .int 5)]]
    [.indOp "Scaler" (some []), .indOp "Classifier" (some [(.str "n_neighbors", .int 5)])]
    (by simp [instantiatePipelineSteps, create_instance_from_hyperopt_search_space,
              instantiate_from_hyperopt_search_space, instantiateDictEntries,
              dict_without, dictMerge, lookup, PKey.isStr, assertStepOk, classNameOf])
    (by decide)
  exact ⟨h.1, h.2.1⟩

/-! C3 and C9: cross-validation aggregation. -/

/-- The accumulators after the fold loop: scores and durations in fold
order, log-losses of exactly the folds that produced one, and
`execution_time` left at the final fold's duration. -/
theorem cvLoop_spec (folds : List FoldResult) (st : CVState) :
    cvLoop folds st =
      { cv_results := st.cv_results ++ folds.map (fun f => f.score),
        log_loss_results :=
          st.log_loss_results ++ folds.filterMap (fun f => f.logloss),
        time_results := st.time_results ++ folds.map (fun f => f.duration),
        execution_time :=
          folds.getLast?.elim st.execution_time (fun f => some f.duration) } := by
  induction folds generalizing st with
  | nil => cases st; simp [cvLoop]
  | cons f fs ih =>
      rw [cvLoop, ih]
      cases fs with
      | nil => cases hfl : f.logloss <;> simp [hfl]
      | cons g gs =>
          have hx : (g :: gs).getLast? = some ((g :: gs).getLast (by simp)) :=
            List.getLast?_eq_getLast _ _
          cases hfl : f.logloss <;>
            simp [hfl, List.getLast?_cons_cons, List.filterMap_cons, hx]

theorem npMean_of_ne_nil (xs : List ℚ) (h : xs ≠ []) :
    npMean xs = some (xs.sum / (xs.length : ℚ)) := by
  cases xs
  · exact absurd rfl h
  · rfl

theorem cross_val_spec (folds : List FoldResult) (h : folds ≠ []) :
    cross_val_score_track_trials folds
      = some (npMean (folds.map (fun f => f.score)),
              npMean (folds.filterMap (fun f => f.logloss)),
              (folds.getLast h).duration) := by
  rw [cross_val_score_track_trials, cvLoop_spec]
  have hlast : folds.getLast? = some (folds.getLast h) := List.getLast?_eq_getLast folds h
  simp [hlast]

theorem C3_fit_time_last_fold (folds : List FoldResult) (h : folds ≠ []) :
    cross_val_score_track_trials folds
      = some (some ((folds.map (fun f => f.score)).sum / (folds.length : ℚ)),
              npMean (folds.filterMap (fun f => f.logloss)),
              (folds.getLast h).duration) := by
  rw [cross_val_spec folds h,
      npMean_of_ne_nil _ (by simpa using h)]
  simp

theorem C3_witness :
    cross_val_score_track_trials
        [⟨1, none, 2⟩, ⟨(1 : ℚ)/2, some 3, 10⟩]
      = some (some (3/4), some 3, 10) ∧
    (10 : ℚ) ≠ (2 + 10) / 2 := by
  constructor
  · have h := C3_fit_time_last_fold [⟨1, none, 2⟩, ⟨(1 : ℚ)/2, some 3, 10⟩] (by simp)
    rw [h]
    norm_num [npMean, List.getLast, List.filterMap]
  · norm_num

theorem C9_no_proba_nan_logloss (folds : List FoldResult) (h : folds ≠ [])
    (hs : ∀ f ∈ folds, f.score = 1) (hl : ∀ f ∈ folds, f.logloss = none) :
    cross_val_score_track_trials folds
      = some (some 1, none, (folds.getLast h).duration) := by
  rw [cross_val_spec folds h]
  have hlen : folds.length ≠ 0 := by simpa using h
  have hmap : folds.map (fun f => f.score) = List.replicate folds.length 1 := by
    rw [List.eq_replicate_iff]
    refine ⟨by simp, ?_⟩
    intro b hb
    rcases List.mem_map.mp hb with ⟨f, hf, hfb⟩
    rw [← hfb]; exact hs f hf
  have hfm : folds.filterMap (fun f => f.logloss) = [] :=
    List.filterMap_eq_nil_iff.mpr hl
  have hq : ((folds.length : ℚ)) ≠ 0 := by exact_mod_cast hlen
  have h1 : npMean (List.replicate folds.length 1) = some 1 := by
    rw [npMean_of_ne_nil _ (by simp [hlen])]
    simp [List.sum_replicate, nsmul_eq_mul, div_self hq]
  rw [hmap, hfm, h1]
  rfl

theorem C9_witness :
    cross_val_score_track_trials
        [⟨1, none, 7⟩, ⟨1, none, 7⟩, ⟨1, none, 7⟩, ⟨1, none, 7⟩, ⟨1, none, 7⟩]
      = some (some 1, none, 7) := by
  have h := C9_no_proba_nan_logloss
    [⟨1, none, 7⟩, ⟨1, none, 7⟩, ⟨1, none, 7⟩, ⟨1, none, 7⟩, ⟨1, none, 7⟩]
    (by simp) (by simp) (by simp)
  simpa [List.getLast] using h

/-! C4: the schema row-count invariant of split_with_schemas. -/

/-- The modelled row selection succeeds on in-range index lists and
returns exactly one row per index. -/
theorem safeSplitRows_ok (rows : List Int) (indices : List Nat)
    (h : ∀ i ∈ indices, i < rows.length) :
    ∃ out, safeSplitRows rows indices = some out ∧ out.length = indices.length := by
  induction indices with
  | nil => exact ⟨[], rfl, rfl⟩
  | cons i rest ih =>
      obtain ⟨out, hout, hlen⟩ := ih (fun j hj => h j (List.mem_cons_of_mem _ hj))
      have hi : i < rows.length := h i (List.mem_cons_self _ _)
      obtain ⟨v, hv⟩ : ∃ v, rows[i]? = some v :=
        ⟨rows[i], List.getElem?_eq_getElem hi⟩
      exact ⟨v :: out, by rw [safeSplitRows, hv, hout], by simp [hlen]⟩

/-- C4: for any schema-carrying X (and y) and any in-range index subset
`I`, the subset returned by `split_with_schemas` carries a derived schema
whose minItems and maxItems both equal the subset's exact row count,
which is `I.length`, and whose items field is copied unchanged. -/
theorem C4_schema_rowcount (X y : SData) (I : List Nat) (tr : Option (List Nat))
    (sx : JSchema) (hx : X.json_schema = some sx)
    (hIx : ∀ i ∈ I, i < X.rows.length) (hIy : ∀ i ∈ I, i < y.rows.length) :
    ∃ subX subY, split_with_schemas X y I tr = some (subX, subY) ∧
      subX.json_schema = some ⟨"array", I.length, I.length, sx.items⟩ ∧
      subX.rows.length = I.length ∧
      (∀ sy, y.json_schema = some sy →
          subY.json_schema = some ⟨"array", I.length, I.length, sy.items⟩) ∧
      subY.rows.length = I.length := by
  obtain ⟨xr, hxr, hxl⟩ := safeSplitRows_ok X.rows I hIx
  obtain ⟨yr, hyr, hyl⟩ := safeSplitRows_ok y.rows I hIy
  simp only [split_with_schemas, hxr, hyr, hx]
  refine ⟨_, _, rfl, by simp [hxl], by simpa using hxl, ?_, by simpa using hyl⟩
  intro sy hsy
  simp [hsy, hyl]

theorem C4_witness :
    ∃ subX subY,
      split_with_schemas ⟨[10, 20, 30], some ⟨"array", 3, 3, "itemX"⟩⟩
          ⟨[0, 1, 2], some ⟨"array", 3, 3, "itemY"⟩⟩ [0, 2] none = some (subX, subY) ∧
      subX.json_schema = some ⟨"array", [0, 2].length, [0, 2].length, "itemX"⟩ ∧
      subX.rows.length = [0, 2].length ∧
      (∀ sy, (⟨[0, 1, 2], some ⟨"array", 3, 3, "itemY"⟩⟩ : SData).json_schema = some sy →
          subY.json_schema = some ⟨"array", [0, 2].length, [0, 2].length, sy.items⟩) ∧
      subY.rows.length = [0, 2].length :=
  C4_schema_rowcount ⟨[10, 20, 30], some ⟨"array", 3, 3, "itemX"⟩⟩
    ⟨[0, 1, 2], some ⟨"array", 3, 3, "itemY"⟩⟩ [0, 2] none
    ⟨"array", 3, 3, "itemX"⟩ rfl (by decide) (by decide)
